import Mathlib

/-!
Verification development for the CRPropa3 diffusion/energy-loss modules.
The numeric `double` values of the C++ source are embedded as real numbers;
fallible operations (constructors and setters that throw, table loading)
are embedded as `Except String`-valued functions.
-/

set_option maxHeartbeats 1000000

noncomputable section

namespace CRPropa

/-! ### Units (src/include/crpropa/Units.h) -/

/-- Constant `meter` from Units.h. -/
def meter : ℝ := 1

/-- Constant `second` from Units.h. -/
def second : ℝ := 1

/-- Constant `kilogram` from Units.h. -/
def kilogram : ℝ := 1

/-- Constant `ampere` from Units.h. -/
def ampere : ℝ := 1

/-- Constant `newton` from Units.h. -/
def newton : ℝ := 1 * kilogram * meter / second / second

/-- Constant `joule` from Units.h. -/
def joule : ℝ := 1 * newton * meter

/-- Constant `eplus` from Units.h. -/
def eplus : ℝ := 1.602176487e-19 * ampere * second

/-- Constant `c_light` from Units.h. -/
def c_light : ℝ := 2.99792458e8 * meter / second

/-- Constant `electronvolt` from Units.h. -/
def electronvolt : ℝ := eplus * joule

/-- Constant `eV` from Units.h. -/
def eV : ℝ := electronvolt

/-- Constant `au` from Units.h. -/
def au : ℝ := 149597870700 * meter

/-- Constant `parsec` from Units.h; the C macro `M_PI` is embedded as `Real.pi`. -/
def parsec : ℝ := 648000 / Real.pi * au

/-- Constant `kiloparsec` from Units.h. -/
def kiloparsec : ℝ := 1e3 * parsec

/-- Constant `megaparsec` from Units.h. -/
def megaparsec : ℝ := 1e6 * parsec

/-- Constant `pc` from Units.h. -/
def pc : ℝ := parsec

/-- Constant `kpc` from Units.h. -/
def kpc : ℝ := kiloparsec

/-- Constant `Mpc` from Units.h. -/
def Mpc : ℝ := megaparsec

/-! ### DiffusionSDE configuration (src/include/crpropa/module/DiffusionSDE.h) -/

/-- The numeric configuration of a `DiffusionSDE` module: the private members
`tolerance`, `minStep`, `maxStep`, `epsilon` declared in DiffusionSDE.h. -/
structure DiffusionSDEConfig where
  tolerance : ℝ
  minStep : ℝ
  maxStep : ℝ
  epsilon : ℝ

/-- The default argument values of the `DiffusionSDE` constructor declared in
DiffusionSDE.h lines 36-37: `tolerance = 1e-4`, `minStep = 10*pc`,
`maxStep = 1*kpc`, `epsilon = 0.1`. -/
def diffusionSDEDefaults : DiffusionSDEConfig :=
  { tolerance := 1e-4, minStep := 10 * pc, maxStep := 1 * kpc, epsilon := 0.1 }

/-- Modelled from the spec: the validating `DiffusionSDE` constructor
(the DiffusionSDE.cpp body is not in the sources; per spec §4.5 a
configuration with `minStep > maxStep`, `tolerance ≤ 0` or `epsilon < 0`
is rejected at configuration time with a descriptive error). -/
def mkDiffusionSDE (tolerance minStep maxStep epsilon : ℝ) :
    Except String DiffusionSDEConfig :=
  if maxStep < minStep then
    Except.error "DiffusionSDE: minStep is larger than maxStep"
  else if tolerance ≤ 0 then
    Except.error "DiffusionSDE: tolerance must be positive"
  else if epsilon < 0 then
    Except.error "DiffusionSDE: epsilon must be non-negative"
  else
    Except.ok ⟨tolerance, minStep, maxStep, epsilon⟩

/-- Modelled from the spec: `DiffusionSDE::setMinimumStep` (body not in the
sources); per spec §6 every mutator re-validates the §4.5 invariants. -/
def setMinimumStep (cfg : DiffusionSDEConfig) (v : ℝ) :
    Except String DiffusionSDEConfig :=
  if cfg.maxStep < v then
    Except.error "DiffusionSDE: minStep is larger than maxStep"
  else
    Except.ok { cfg with minStep := v }

/-- Modelled from the spec: `DiffusionSDE::setMaximumStep` (body not in the
sources); per spec §6 every mutator re-validates the §4.5 invariants. -/
def setMaximumStep (cfg : DiffusionSDEConfig) (v : ℝ) :
    Except String DiffusionSDEConfig :=
  if v < cfg.minStep then
    Except.error "DiffusionSDE: minStep is larger than maxStep"
  else
    Except.ok { cfg with maxStep := v }

/-- Modelled from the spec: `DiffusionSDE::setTolerance` (body not in the
sources); per spec §6 every mutator re-validates the §4.5 invariants. -/
def setTolerance (cfg : DiffusionSDEConfig) (v : ℝ) :
    Except String DiffusionSDEConfig :=
  if v ≤ 0 then
    Except.error "DiffusionSDE: tolerance must be positive"
  else
    Except.ok { cfg with tolerance := v }

/-- Modelled from the spec: `DiffusionSDE::setEpsilon` (body not in the
sources); per spec §6 every mutator re-validates the §4.5 invariants. -/
def setEpsilon (cfg : DiffusionSDEConfig) (v : ℝ) :
    Except String DiffusionSDEConfig :=
  if v < 0 then
    Except.error "DiffusionSDE: epsilon must be non-negative"
  else
    Except.ok { cfg with epsilon := v }

/-! ### The adaptive step-size control loop of `DiffusionSDE::process` -/

/-- Modelled from the spec: the Propose/Evaluate/Accept-or-Retry loop of
`DiffusionSDE::process` (DiffusionSDE.cpp is not in the sources; spec §4.3).
`err` is the normalized error estimate of the embedded integrator pair as a
function of the trial step, `tol` the tolerance and `minStep` the step floor.
If the error is within tolerance the step is accepted; otherwise the step is
halved and retried, except that when the halved step would fall below
`minStep` the step is force-accepted at `minStep`.  The `fuel` argument is
an upper bound on the number of iterations inspected; `none` means the loop
was still running after `fuel` iterations. -/
def stepControl (err : ℝ → ℝ) (tol minStep : ℝ) : ℕ → ℝ → Option ℝ
  | 0, _ => none
  | n + 1, h =>
      if err h ≤ tol then some h
      else if h / 2 < minStep then some minStep
      else stepControl err tol minStep n (h / 2)

/-- Modelled from the spec: one call of `DiffusionSDE::process` at the level
of step-size control (spec §2, §4.3): the candidate's stored step hint is
first clamped into `[minStep, maxStep]` and then the accept-or-retry loop is
run on it. -/
def processStep (err : ℝ → ℝ) (tol minStep maxStep : ℝ) (fuel : ℕ)
    (hint : ℝ) : Option ℝ :=
  stepControl err tol minStep fuel (min maxStep (max minStep hint))

/-- A constant error estimate that is accepted at once (used as a concrete
oracle instance). -/
def constErrAccept : ℝ → ℝ := fun _ => 0

/-- A constant error estimate that is never within a tolerance of `0` (used
as a concrete oracle instance). -/
def constErrReject : ℝ → ℝ := fun _ => 1

/-! ### ElectronPairProduction (src/src/module/ElectronPairProduction.cpp) -/

/-- Modelled from the spec: the `PhotonField` enumeration (its header is not
in the sources); the three backgrounds named in the `switch` of
`ElectronPairProduction::init` plus a value reaching its `default` branch. -/
inductive PhotonField where
  | CMB
  | IRB
  | CMB_IRB
  | unknownField
deriving DecidableEq

/-- The mutable state of an `ElectronPairProduction` module: the configured
photon field, the member vectors `energy` and `lossRate` (stored as one list
of pairs, since `init` always pushes one entry onto each), and the module
description. -/
structure EPPState where
  photonField : PhotonField
  table : List (ℝ × ℝ)
  description : String

/-- Modelled from the spec: the file system seen through `getDataPath` and
`std::ifstream` (file loading is outside the core, spec §1); `none` is a
file that cannot be opened, `some rows` the parsed numeric rows `(a, b)`. -/
def FileOracle : Type := String → Option (List (ℝ × ℝ))

/-- Function `ElectronPairProduction::init(std::string filename)` of lines 39-60: on an
unopenable file it throws; otherwise each parsed row `(a, b)` is appended as
`(a * eV, b * eV / Mpc)` by `push_back` onto the member vectors, which are
NOT cleared first. -/
def initFromFile (fs : FileOracle) (st : EPPState) (filename : String) :
    Except String EPPState :=
  match fs filename with
  | none => Except.error
      ("ElectronPairProduction: could not open file " ++ filename)
  | some rows => Except.ok
      { st with table := st.table ++ rows.map (fun p => (p.1 * eV, p.2 * eV / Mpc)) }

/-- Function `ElectronPairProduction::init()` of lines 19-37: the `switch` on the photon
field sets the description and loads the matching data file; the `default`
branch throws `"ElectronPairProduction: unknown photon background"`. -/
def epInit (fs : FileOracle) (st : EPPState) : Except String EPPState :=
  match st.photonField with
  | PhotonField.CMB =>
      initFromFile fs { st with description := "ElectronPairProduction: CMB" }
        "epair_CMB.txt"
  | PhotonField.IRB =>
      initFromFile fs { st with description := "ElectronPairProduction: IRB" }
        "epair_IRB.txt"
  | PhotonField.CMB_IRB =>
      initFromFile fs
        { st with description := "ElectronPairProduction: CMB and IRB" }
        "epair_CMB_IRB.txt"
  | PhotonField.unknownField =>
      Except.error "ElectronPairProduction: unknown photon background"

/-- Function `ElectronPairProduction::setPhotonField` of lines 14-17: stores the new
photon field and re-runs `init()`. -/
def setPhotonField (fs : FileOracle) (st : EPPState) (pf : PhotonField) :
    Except String EPPState :=
  epInit fs { st with photonField := pf }

/-- Constructor `ElectronPairProduction::ElectronPairProduction(PhotonField)` of lines 9-12:
stores the photon field and runs `init()` on empty member vectors. -/
def mkElectronPairProduction (fs : FileOracle) (pf : PhotonField) :
    Except String EPPState :=
  epInit fs { photonField := pf, table := [], description := "" }

/-- The candidate state read and written by `ElectronPairProduction::process`:
`current.isNucleus()`, `current.getChargeNumber()`, `current.getMassNumber()`,
`current.getEnergy()`, `getRedshift()`, `getCurrentStep()`, plus the position
and propagation direction, which this module never touches. -/
structure Candidate where
  isNucleus : Bool
  chargeNumber : ℝ
  massNumber : ℝ
  energy : ℝ
  redshift : ℝ
  currentStep : ℝ
  position : ℝ × ℝ × ℝ
  direction : ℝ × ℝ × ℝ

/-- First element of the table (the C++ `energy.front()` on the pair list);
default `(0, 0)` stands for the undefined value on an empty vector. -/
def frontD : List (ℝ × ℝ) → ℝ × ℝ
  | [] => (0, 0)
  | p :: _ => p

/-- Last element of the table (the C++ `energy.back()` / `lossRate.back()`);
default `(0, 0)` stands for the undefined value on an empty vector. -/
def lastD : List (ℝ × ℝ) → ℝ × ℝ
  | [] => (0, 0)
  | [p] => p
  | _ :: q :: r => lastD (q :: r)

/-- Value `energy.front()` of the loaded table. -/
def energyFront (tbl : List (ℝ × ℝ)) : ℝ := (frontD tbl).1

/-- Value `energy.back()` of the loaded table. -/
def energyBack (tbl : List (ℝ × ℝ)) : ℝ := (lastD tbl).1

/-- Value `lossRate.back()` of the loaded table. -/
def lossRateBack (tbl : List (ℝ × ℝ)) : ℝ := (lastD tbl).2

/-- Modelled from the spec: `crpropa::interpolate` (its source is not in the
sources; per spec §1 the tabulated losses are "comparatively simple
deterministic table lookups" by interpolation): piecewise-linear
interpolation between adjacent table nodes, evaluated on the segment
`[pᵢ.1, pᵢ₊₁.1)` containing `x`; this module only calls it with `x` between
`energy.front()` and `energy.back()`. -/
def interpolate (x : ℝ) : List (ℝ × ℝ) → ℝ
  | [] => 0
  | [p] => p.2
  | p :: q :: r =>
      if x < q.1 then p.2 + (x - p.1) * (q.2 - p.2) / (q.1 - p.1)
      else interpolate x (q :: r)

/-- The loss rate at a scaled energy per nucleon, lines 78-82 (and the
identical lines 107-111): tabulated interpolation strictly below
`energy.back()`, power-law extrapolation
`lossRate.back() * (x / energy.back()) ^ 0.4` at and above it. -/
def eppRateAt (tbl : List (ℝ × ℝ)) (x : ℝ) : ℝ :=
  if x < energyBack tbl then interpolate x tbl
  else lossRateBack tbl * (x / energyBack tbl) ^ (0.4 : ℝ)

/-- The redshift-scaled energy per nucleon `EpA = E / A * (1 + z)` of
line 70. -/
def eppEpA (c : Candidate) : ℝ := c.energy / c.massNumber * (1 + c.redshift)

/-- Function `ElectronPairProduction::process` of lines 62-94: early return for
non-nuclei, for `Z < 1` and below the tabulated threshold; otherwise the
energy loss `dE = Z·Z·rate·(1+z)²·step` (with the step converted to the
local frame) is clamped to the current energy and subtracted. -/
def process (tbl : List (ℝ × ℝ)) (c : Candidate) : Candidate :=
  if c.isNucleus = false then c
  else if c.chargeNumber < 1 then c
  else if eppEpA c < energyFront tbl then c
  else
    let rate := eppRateAt tbl (eppEpA c)
    let step := c.currentStep / (1 + c.redshift)
    let dE := c.chargeNumber * c.chargeNumber * rate * (1 + c.redshift) ^ 2 * step
    { c with energy := c.energy - min c.energy dE }

/-- Constant `std::numeric_limits<double>::max()`, the value returned by
`energyLossLength` outside the table domain. -/
def dblMax : ℝ := (2 ^ 53 - 1) * 2 ^ 971

/-- Function `ElectronPairProduction::energyLossLength` of lines 96-115, taking the
charge and mass numbers already decoded from the nucleus id (the decoding
helpers are external collaborators, not in the sources): infinite loss
length for `Z < 1` or below the tabulated threshold, otherwise the inverse
of `Z·Z·rate/E`. -/
def energyLossLength (tbl : List (ℝ × ℝ)) (Z A E : ℝ) : ℝ :=
  if Z < 1 then dblMax
  else if E / A < energyFront tbl then dblMax
  else 1 / (Z * Z * eppRateAt tbl (E / A) / E)

/-- A loss-rate table is valid when it is non-empty, its energies are
strictly increasing, its lowest energy is positive and its rates are
non-negative. -/
def validLossTable (tbl : List (ℝ × ℝ)) : Prop :=
  tbl ≠ [] ∧ List.Chain' (fun a b => a.1 < b.1) tbl ∧
    0 < energyFront tbl ∧ ∀ p ∈ tbl, 0 ≤ p.2

/-! ### Diffusion tensor (DiffusionSDE::calculateBTensor) -/

/-- The diffusion tensor, represented by its two principal coefficients: it
is diagonal `(D_par, D_perp, D_perp)` in the local orthonormal basis whose
first axis is the local field direction (spec §4.1). -/
structure DiffusionTensor where
  par : ℝ
  perp : ℝ

/-- Modelled from the spec: `DiffusionSDE::calculateBTensor` (DiffusionSDE.cpp
is not in the sources; spec §4.1 and the member comments of DiffusionSDE.h):
`D_perp = scale * D0(rigidity) * energy^alpha` with `D0` the baseline
rigidity dependence of the turbulence model, and `D_par = epsilon * D_perp`.
The position, field direction and redshift determine the rotation into the
global frame and do not enter the principal coefficients. -/
def calculateBTensor (scale epsilon alpha : ℝ) (D0 : ℝ → ℝ) (rig energy : ℝ)
    (pos dir : ℝ × ℝ × ℝ) (z : ℝ) : DiffusionTensor :=
  let dPerp := scale * D0 rig * energy ^ alpha
  { par := epsilon * dPerp, perp := dPerp }

/-! ### Concrete instances used to witness the theorems -/

/-- A candidate that is not a nucleus. -/
def cand0 : Candidate :=
  { isNucleus := false, chargeNumber := 1, massNumber := 1, energy := 1,
    redshift := 0, currentStep := 1, position := (0, 0, 0),
    direction := (0, 0, 1) }

/-- A proton-like candidate whose scaled energy per nucleon is exactly `1`. -/
def candB : Candidate :=
  { isNucleus := true, chargeNumber := 1, massNumber := 1, energy := 1,
    redshift := 0, currentStep := 1, position := (0, 0, 0),
    direction := (0, 0, 1) }

/-- A two-node loss-rate table with energies `1, 2` and rates `2, 3`. -/
def tblB : List (ℝ × ℝ) := [(1, 2), (2, 3)]

/-- A one-node loss-rate table. -/
def tblC : List (ℝ × ℝ) := [(1, 1)]

/-- A concrete `DiffusionSDE` configuration with all parameters `1`. -/
def cfg0 : DiffusionSDEConfig := ⟨1, 1, 1, 1⟩

/-- A file oracle that can open no file. -/
def fsNone : FileOracle := fun _ => none

/-- An `ElectronPairProduction` state holding an unknown photon background. -/
def st0 : EPPState := ⟨PhotonField.unknownField, [], ""⟩

/-- A freshly constructed `ElectronPairProduction` state for the CMB. -/
def st1 : EPPState := ⟨PhotonField.CMB, [], ""⟩

/-- A file oracle holding a one-row CMB pair-production table. -/
def fsCMB : FileOracle :=
  fun f => if f = "epair_CMB.txt" then some [(1, 1)] else none

/-! ### Theorems -/

theorem stepControl_some_mono (err : ℝ → ℝ) (tol minStep : ℝ) :
    ∀ n h r, stepControl err tol minStep n h = some r →
      ∀ k, stepControl err tol minStep (n + k) h = some r := by
  intro n
  induction n with
  | zero => intro h r hr; simp [stepControl] at hr
  | succ m ih =>
      intro h r hr k
      rw [stepControl] at hr
      have hk : m + 1 + k = (m + k) + 1 := by omega
      rw [hk, stepControl]
      by_cases h1 : err h ≤ tol
      · rw [if_pos h1] at hr ⊢; exact hr
      · rw [if_neg h1] at hr ⊢
        by_cases h2 : h / 2 < minStep
        · rw [if_pos h2] at hr ⊢; exact hr
        · rw [if_neg h2] at hr ⊢
          exact ih (h / 2) r hr k

theorem stepControl_reaches (err : ℝ → ℝ) (tol minStep : ℝ)
    (hm : 0 < minStep) :
    ∀ n h, h < minStep * 2 ^ n →
      ∃ r, stepControl err tol minStep (n + 1) h = some r := by
  intro n
  induction n with
  | zero =>
      intro h hh
      simp only [pow_zero, mul_one] at hh
      rw [stepControl]
      by_cases h1 : err h ≤ tol
      · exact ⟨h, if_pos h1⟩
      · refine ⟨minStep, ?_⟩
        rw [if_neg h1, if_pos ?_]
        have : h < minStep * 2 := lt_of_lt_of_le hh (by linarith)
        exact (div_lt_iff₀ two_pos).2 this
  | succ m ih =>
      intro h hh
      rw [stepControl]
      by_cases h1 : err h ≤ tol
      · exact ⟨h, if_pos h1⟩
      · by_cases h2 : h / 2 < minStep
        · exact ⟨minStep, by rw [if_neg h1, if_pos h2]⟩
        · have hh2 : h / 2 < minStep * 2 ^ m := by
            rw [div_lt_iff₀ two_pos]
            calc h < minStep * 2 ^ (m + 1) := hh
            _ = minStep * 2 ^ m * 2 := by ring
          obtain ⟨r, hr⟩ := ih (h / 2) hh2
          exact ⟨r, by rw [if_neg h1, if_neg h2]; exact hr⟩

/-- C1: the propose/evaluate/retry loop inside `DiffusionSDE::process`
terminates for every configuration with a positive step floor: there is a
finite iteration bound past which the loop has always accepted a step
(each rejection halves the step, and a halved step that would fall below
`minStep` is force-accepted at `minStep`). -/
theorem stepControl_terminates (err : ℝ → ℝ) (tol minStep maxStep hint : ℝ)
    (hm : 0 < minStep) :
    ∃ n, ∀ m, n ≤ m →
      ∃ r, processStep err tol minStep maxStep m hint = some r := by
  set h0 := min maxStep (max minStep hint) with hh0
  obtain ⟨n, hn⟩ := pow_unbounded_of_one_lt (y := (2 : ℝ)) (h0 / minStep) one_lt_two
  have hlt : h0 < minStep * 2 ^ n := by
    have := (div_lt_iff₀ hm).1 hn
    linarith [this]
  obtain ⟨r, hr⟩ := stepControl_reaches err tol minStep hm n h0 hlt
  refine ⟨n + 1, fun m hm' => ?_⟩
  obtain ⟨k, hk⟩ := Nat.exists_eq_add_of_le hm'
  refine ⟨r, ?_⟩
  unfold processStep
  rw [hk]
  exact stepControl_some_mono err tol minStep (n + 1) h0 r hr k

/-- Witness for C1 at a concrete configuration: `minStep = 1`,
`maxStep = 2`, an error oracle that always rejects, and step hint `5`. -/
theorem stepControl_terminates_witness :
    (0 : ℝ) < 1 ∧
      ∃ n, ∀ m, n ≤ m →
        ∃ r, processStep constErrReject 0 1 2 m 5 = some r :=
  ⟨zero_lt_one, stepControl_terminates constErrReject 0 1 2 5 zero_lt_one⟩

theorem stepControl_bounds (err : ℝ → ℝ) (tol minStep maxStep : ℝ)
    (hm : 0 < minStep) :
    ∀ n h r, minStep ≤ h → h ≤ maxStep →
      stepControl err tol minStep n h = some r →
      minStep ≤ r ∧ r ≤ maxStep := by
  intro n
  induction n with
  | zero => intro h r _ _ hr; simp [stepControl] at hr
  | succ m ih =>
      intro h r hlo hhi hr
      rw [stepControl] at hr
      by_cases h1 : err h ≤ tol
      · rw [if_pos h1] at hr
        cases hr
        exact ⟨hlo, hhi⟩
      · rw [if_neg h1] at hr
        by_cases h2 : h / 2 < minStep
        · rw [if_pos h2] at hr
          cases hr
          exact ⟨le_refl _, le_trans hlo hhi⟩
        · rw [if_neg h2] at hr
          have hlo2 : minStep ≤ h / 2 := le_of_not_lt h2
          have hhi2 : h / 2 ≤ maxStep := by
            have h0 : 0 ≤ h := le_trans (le_of_lt hm) hlo
            linarith [half_le_self h0]
          exact ih (h / 2) r hlo2 hhi2 hr

/-- C2: for every valid configuration (`0 < minStep ≤ maxStep`) the step
length accepted by the control loop of `DiffusionSDE::process` lies in
`[minStep, maxStep]`; forced acceptance under non-convergence yields exactly
`minStep`, which is inside the bounds. -/
theorem acceptedStep_within_bounds (err : ℝ → ℝ) (tol minStep maxStep : ℝ)
    (hm : 0 < minStep) (hmx : minStep ≤ maxStep) (fuel : ℕ) (hint r : ℝ)
    (hr : processStep err tol minStep maxStep fuel hint = some r) :
    minStep ≤ r ∧ r ≤ maxStep := by
  unfold processStep at hr
  refine stepControl_bounds err tol minStep maxStep hm fuel
    (min maxStep (max minStep hint)) r ?_ ?_ hr
  · exact le_min hmx (le_max_left _ _)
  · exact min_le_left _ _

/-- Witness for C2 at a concrete configuration: `minStep = 1`, `maxStep = 2`,
an error oracle that accepts at once, and step hint `5`; the hint is clamped
to `2` and accepted, and `1 ≤ 2 ∧ 2 ≤ 2`. -/
theorem acceptedStep_within_bounds_witness :
    processStep constErrAccept 0 1 2 1 5 = some 2 ∧ (1 : ℝ) ≤ 2 ∧ (2 : ℝ) ≤ 2 := by
  have hclamp : min (2 : ℝ) (max 1 5) = 2 := by norm_num
  have heq : processStep constErrAccept 0 1 2 1 5 = some 2 := by
    unfold processStep
    rw [hclamp, stepControl]
    exact if_pos (by norm_num [constErrAccept])
  exact ⟨heq, acceptedStep_within_bounds constErrAccept 0 1 2 zero_lt_one
    one_le_two 1 5 2 heq⟩

/-- C4: the `DiffusionSDE` constructor defaults declared in DiffusionSDE.h:
`tolerance = 1e-4`, `minStep = 10` parsec, `maxStep = 1` kpc `= 1000` parsec
(with `kiloparsec` defined in Units.h as exactly `1e3 * parsec`), and
`epsilon = 0.1`. -/
theorem diffusionSDE_default_parameters :
    diffusionSDEDefaults.tolerance = 1e-4 ∧
      diffusionSDEDefaults.minStep = 10 * parsec ∧
      diffusionSDEDefaults.maxStep = 1000 * parsec ∧
      kiloparsec = 1e3 * parsec ∧
      diffusionSDEDefaults.epsilon = 0.1 := by
  refine ⟨rfl, rfl, ?_, rfl, rfl⟩
  show 1 * kpc = 1000 * parsec
  unfold kpc kiloparsec
  norm_num

theorem lastD_mem : ∀ (l : List (ℝ × ℝ)), l ≠ [] → lastD l ∈ l
  | [], h => absurd rfl h
  | [p], _ => by simp [lastD]
  | p :: q :: r, _ => by
      rw [lastD]
      exact List.mem_cons_of_mem p (lastD_mem (q :: r) (by simp))

theorem front_le_back :
    ∀ l : List (ℝ × ℝ), List.Chain' (fun a b => a.1 < b.1) l →
      (frontD l).1 ≤ (lastD l).1
  | [], _ => le_refl _
  | [_], _ => le_refl _
  | p :: q :: r, hc => by
      rw [List.chain'_cons] at hc
      rw [frontD, lastD]
      have ih := front_le_back (q :: r) hc.2
      rw [frontD] at ih
      exact le_trans (le_of_lt hc.1) ih

theorem interpolate_nonneg :
    ∀ (l : List (ℝ × ℝ)) (x : ℝ), List.Chain' (fun a b => a.1 < b.1) l →
      (∀ p ∈ l, 0 ≤ p.2) → (frontD l).1 ≤ x → 0 ≤ interpolate x l
  | [], _, _, _, _ => le_refl _
  | [p], _, _, hr, _ => hr p (by simp)
  | p :: q :: r, x, hc, hr, hx => by
      rw [List.chain'_cons] at hc
      rw [frontD] at hx
      rw [interpolate]
      by_cases hxq : x < q.1
      · rw [if_pos hxq]
        have hd : (0 : ℝ) < q.1 - p.1 := by linarith [hc.1]
        have hp2 : 0 ≤ p.2 := hr p (by simp)
        have hq2 : 0 ≤ q.2 := hr q (by simp)
        have key : p.2 + (x - p.1) * (q.2 - p.2) / (q.1 - p.1)
            = ((q.1 - x) * p.2 + (x - p.1) * q.2) / (q.1 - p.1) := by
          field_simp
          ring
        rw [key]
        refine div_nonneg (add_nonneg ?_ ?_) (le_of_lt hd)
        · exact mul_nonneg (by linarith) hp2
        · exact mul_nonneg (by linarith) hq2
      · rw [if_neg hxq]
        refine interpolate_nonneg (q :: r) x hc.2
          (fun s hs => hr s (List.mem_cons_of_mem p hs)) ?_
        rw [frontD]
        exact le_of_not_lt hxq

theorem interpolate_pos :
    ∀ (l : List (ℝ × ℝ)) (x : ℝ), l ≠ [] →
      List.Chain' (fun a b => a.1 < b.1) l →
      (∀ p ∈ l, 0 < p.2) → (frontD l).1 ≤ x → 0 < interpolate x l
  | [], _, h, _, _, _ => absurd rfl h
  | [p], _, _, _, hr, _ => hr p (by simp)
  | p :: q :: r, x, _, hc, hr, hx => by
      rw [List.chain'_cons] at hc
      rw [frontD] at hx
      rw [interpolate]
      by_cases hxq : x < q.1
      · rw [if_pos hxq]
        have hd : (0 : ℝ) < q.1 - p.1 := by linarith [hc.1]
        have hp2 : 0 < p.2 := hr p (by simp)
        have hq2 : 0 < q.2 := hr q (by simp)
        have key : p.2 + (x - p.1) * (q.2 - p.2) / (q.1 - p.1)
            = ((q.1 - x) * p.2 + (x - p.1) * q.2) / (q.1 - p.1) := by
          field_simp
          ring
        rw [key]
        refine div_pos (add_pos_of_pos_of_nonneg ?_ ?_) hd
        · exact mul_pos (by linarith) hp2
        · exact mul_nonneg (by linarith) (le_of_lt hq2)
      · rw [if_neg hxq]
        refine interpolate_pos (q :: r) x (by simp) hc.2
          (fun s hs => hr s (List.mem_cons_of_mem p hs)) ?_
        rw [frontD]
        exact le_of_not_lt hxq

theorem process_eq_self (tbl : List (ℝ × ℝ)) (c : Candidate)
    (h : c.isNucleus = false ∨ c.chargeNumber < 1 ∨
      eppEpA c < energyFront tbl) :
    process tbl c = c := by
  unfold process
  rcases h with h | h | h
  · rw [if_pos h]
  · by_cases h1 : c.isNucleus = false
    · rw [if_pos h1]
    · rw [if_neg h1, if_pos h]
  · by_cases h1 : c.isNucleus = false
    · rw [if_pos h1]
    · rw [if_neg h1]
      by_cases h2 : c.chargeNumber < 1
      · rw [if_pos h2]
      · rw [if_neg h2, if_pos h]

theorem process_main (tbl : List (ℝ × ℝ)) (c : Candidate)
    (h1 : c.isNucleus = true) (h2 : ¬ c.chargeNumber < 1)
    (h3 : ¬ eppEpA c < energyFront tbl) :
    process tbl c =
      { c with
        energy := c.energy - min c.energy
          (c.chargeNumber * c.chargeNumber * eppRateAt tbl (eppEpA c) *
            (1 + c.redshift) ^ 2 * (c.currentStep / (1 + c.redshift))) } := by
  unfold process
  rw [if_neg (by simp [h1]), if_neg h2, if_neg h3]

theorem eppRateAt_nonneg (tbl : List (ℝ × ℝ)) (x : ℝ)
    (ht : validLossTable tbl) (hx : energyFront tbl ≤ x) :
    0 ≤ eppRateAt tbl x := by
  obtain ⟨hne, hchain, hfront, hrates⟩ := ht
  unfold eppRateAt
  by_cases hb : x < energyBack tbl
  · rw [if_pos hb]
    exact interpolate_nonneg tbl x hchain hrates hx
  · rw [if_neg hb]
    have hback : 0 < energyBack tbl :=
      lt_of_lt_of_le hfront (front_le_back tbl hchain)
    have hxpos : 0 < x := lt_of_lt_of_le hfront hx
    refine mul_nonneg (hrates _ (lastD_mem tbl hne)) ?_
    exact Real.rpow_nonneg (div_nonneg (le_of_lt hxpos) (le_of_lt hback)) _

theorem eppRateAt_pos (tbl : List (ℝ × ℝ)) (x : ℝ)
    (ht : validLossTable tbl) (hpos : ∀ p ∈ tbl, 0 < p.2)
    (hx : energyFront tbl ≤ x) :
    0 < eppRateAt tbl x := by
  obtain ⟨hne, hchain, hfront, _⟩ := ht
  unfold eppRateAt
  by_cases hb : x < energyBack tbl
  · rw [if_pos hb]
    exact interpolate_pos tbl x hne hchain hpos hx
  · rw [if_neg hb]
    have hback : 0 < energyBack tbl :=
      lt_of_lt_of_le hfront (front_le_back tbl hchain)
    have hxpos : 0 < x := lt_of_lt_of_le hfront hx
    refine mul_pos (hpos _ (lastD_mem tbl hne)) ?_
    exact Real.rpow_pos_of_pos (div_pos hxpos hback) _

theorem initFromFile_none (fs : FileOracle) (st : EPPState) (fn : String)
    (h : fs fn = none) :
    initFromFile fs st fn =
      Except.error ("ElectronPairProduction: could not open file " ++ fn) := by
  unfold initFromFile
  rw [h]

/-- C3: invalid configuration is rejected with a descriptive error at
construction/setter time: the `DiffusionSDE` constructor and each setter
reject `minStep > maxStep`, `tolerance ≤ 0` and `epsilon < 0`; and
`ElectronPairProduction` setup throws on an unknown photon background and on
an unopenable data file. -/
theorem invalid_config_rejected :
    (∀ tolerance minStep maxStep epsilon : ℝ,
        maxStep < minStep ∨ tolerance ≤ 0 ∨ epsilon < 0 →
        ∃ msg, mkDiffusionSDE tolerance minStep maxStep epsilon =
          Except.error msg) ∧
    (∀ (cfg : DiffusionSDEConfig) (v : ℝ), cfg.maxStep < v →
        ∃ msg, setMinimumStep cfg v = Except.error msg) ∧
    (∀ (cfg : DiffusionSDEConfig) (v : ℝ), v < cfg.minStep →
        ∃ msg, setMaximumStep cfg v = Except.error msg) ∧
    (∀ (cfg : DiffusionSDEConfig) (v : ℝ), v ≤ 0 →
        ∃ msg, setTolerance cfg v = Except.error msg) ∧
    (∀ (cfg : DiffusionSDEConfig) (v : ℝ), v < 0 →
        ∃ msg, setEpsilon cfg v = Except.error msg) ∧
    (∀ (fs : FileOracle) (st : EPPState),
        st.photonField = PhotonField.unknownField →
        ∃ msg, epInit fs st = Except.error msg) ∧
    (∀ (fs : FileOracle) (st : EPPState), (∀ f, fs f = none) →
        ∃ msg, epInit fs st = Except.error msg) := by
  refine ⟨?_, ?_, ?_, ?_, ?_, ?_, ?_⟩
  · intro t mn mx e h
    unfold mkDiffusionSDE
    rcases h with h | h | h
    · rw [if_pos h]; exact ⟨_, rfl⟩
    · by_cases h1 : mx < mn
      · rw [if_pos h1]; exact ⟨_, rfl⟩
      · rw [if_neg h1, if_pos h]; exact ⟨_, rfl⟩
    · by_cases h1 : mx < mn
      · rw [if_pos h1]; exact ⟨_, rfl⟩
      · rw [if_neg h1]
        by_cases h2 : t ≤ 0
        · rw [if_pos h2]; exact ⟨_, rfl⟩
        · rw [if_neg h2, if_pos h]; exact ⟨_, rfl⟩
  · intro cfg v h
    unfold setMinimumStep
    rw [if_pos h]; exact ⟨_, rfl⟩
  · intro cfg v h
    unfold setMaximumStep
    rw [if_pos h]; exact ⟨_, rfl⟩
  · intro cfg v h
    unfold setTolerance
    rw [if_pos h]; exact ⟨_, rfl⟩
  · intro cfg v h
    unfold setEpsilon
    rw [if_pos h]; exact ⟨_, rfl⟩
  · intro fs st h
    obtain ⟨pf, tb, ds⟩ := st
    change pf = PhotonField.unknownField at h
    subst h
    exact ⟨_, rfl⟩
  · intro fs st hfs
    obtain ⟨pf, tb, ds⟩ := st
    cases pf
    case CMB => exact ⟨_, initFromFile_none fs _ _ (hfs _)⟩
    case IRB => exact ⟨_, initFromFile_none fs _ _ (hfs _)⟩
    case CMB_IRB => exact ⟨_, initFromFile_none fs _ _ (hfs _)⟩
    case unknownField => exact ⟨_, rfl⟩

/-- Witness for C3: concrete invalid inputs for the constructor, each
setter, an unknown photon background, and a file oracle opening no file. -/
theorem invalid_config_rejected_witness :
    (∃ msg, mkDiffusionSDE 1 2 1 1 = Except.error msg) ∧
      (∃ msg, setMinimumStep cfg0 2 = Except.error msg) ∧
      (∃ msg, setMaximumStep cfg0 0 = Except.error msg) ∧
      (∃ msg, setTolerance cfg0 0 = Except.error msg) ∧
      (∃ msg, setEpsilon cfg0 (-1) = Except.error msg) ∧
      (∃ msg, epInit fsNone st0 = Except.error msg) ∧
      (∃ msg, epInit fsNone st1 = Except.error msg) :=
  ⟨invalid_config_rejected.1 1 2 1 1 (Or.inl one_lt_two),
   invalid_config_rejected.2.1 cfg0 2 (by norm_num [cfg0]),
   invalid_config_rejected.2.2.1 cfg0 0 (by norm_num [cfg0]),
   invalid_config_rejected.2.2.2.1 cfg0 0 le_rfl,
   invalid_config_rejected.2.2.2.2.1 cfg0 (-1) (by norm_num),
   invalid_config_rejected.2.2.2.2.2.1 fsNone st0 rfl,
   invalid_config_rejected.2.2.2.2.2.2 fsNone st1 (fun _ => rfl)⟩

/-- C5: `ElectronPairProduction::process` preserves the candidate
invariants: for a valid loss table, a non-negative energy, step and
redshift, the written energy lies in `[0, E]` (the computed loss `dE` is
clamped to the current energy before the subtraction), and the propagation
direction and position are untouched, so a unit direction stays a unit
direction. -/
theorem epp_process_preserves_invariants (tbl : List (ℝ × ℝ)) (c : Candidate)
    (ht : validLossTable tbl) (hE : 0 ≤ c.energy) (hstep : 0 ≤ c.currentStep)
    (hz : 0 ≤ c.redshift) :
    0 ≤ (process tbl c).energy ∧ (process tbl c).energy ≤ c.energy ∧
      (process tbl c).direction = c.direction ∧
      (process tbl c).position = c.position := by
  by_cases h1 : c.isNucleus = false
  · rw [process_eq_self tbl c (Or.inl h1)]
    exact ⟨hE, le_refl _, rfl, rfl⟩
  by_cases h2 : c.chargeNumber < 1
  · rw [process_eq_self tbl c (Or.inr (Or.inl h2))]
    exact ⟨hE, le_refl _, rfl, rfl⟩
  by_cases h3 : eppEpA c < energyFront tbl
  · rw [process_eq_self tbl c (Or.inr (Or.inr h3))]
    exact ⟨hE, le_refl _, rfl, rfl⟩
  have h1' : c.isNucleus = true := by
    cases hb : c.isNucleus
    · exact absurd hb h1
    · rfl
  rw [process_main tbl c h1' h2 h3]
  have hrate : 0 ≤ eppRateAt tbl (eppEpA c) :=
    eppRateAt_nonneg tbl (eppEpA c) ht (le_of_not_lt h3)
  have hZ : (0 : ℝ) ≤ c.chargeNumber := le_trans zero_le_one (not_lt.1 h2)
  have hdE : 0 ≤ c.chargeNumber * c.chargeNumber * eppRateAt tbl (eppEpA c) *
      (1 + c.redshift) ^ 2 * (c.currentStep / (1 + c.redshift)) := by
    refine mul_nonneg (mul_nonneg (mul_nonneg (mul_nonneg hZ hZ) hrate) ?_) ?_
    · exact pow_nonneg (by linarith) 2
    · exact div_nonneg hstep (by linarith)
  refine ⟨?_, ?_, rfl, rfl⟩
  · show 0 ≤ c.energy - min c.energy
      (c.chargeNumber * c.chargeNumber * eppRateAt tbl (eppEpA c) *
        (1 + c.redshift) ^ 2 * (c.currentStep / (1 + c.redshift)))
    have hmin := min_le_left c.energy
      (c.chargeNumber * c.chargeNumber * eppRateAt tbl (eppEpA c) *
        (1 + c.redshift) ^ 2 * (c.currentStep / (1 + c.redshift)))
    linarith
  · show c.energy - min c.energy
      (c.chargeNumber * c.chargeNumber * eppRateAt tbl (eppEpA c) *
        (1 + c.redshift) ^ 2 * (c.currentStep / (1 + c.redshift))) ≤ c.energy
    have hmin : 0 ≤ min c.energy
      (c.chargeNumber * c.chargeNumber * eppRateAt tbl (eppEpA c) *
        (1 + c.redshift) ^ 2 * (c.currentStep / (1 + c.redshift))) :=
      le_min hE hdE
    linarith

/-- Witness for C5 on a one-node table and a proton-like candidate. -/
theorem epp_process_preserves_invariants_witness :
    0 ≤ (process tblC candB).energy ∧
      (process tblC candB).energy ≤ candB.energy ∧
      (process tblC candB).direction = candB.direction ∧
      (process tblC candB).position = candB.position := by
  refine epp_process_preserves_invariants tblC candB ?_ ?_ ?_ ?_
  · unfold validLossTable
    refine ⟨by simp [tblC], by simp [tblC], ?_, ?_⟩
    · norm_num [energyFront, frontD, tblC]
    · intro p hp
      simp [tblC] at hp
      subst hp
      norm_num
  · norm_num [candB]
  · norm_num [candB]
  · norm_num [candB]

/-- C6: boundary behaviour of `ElectronPairProduction`: at a scaled energy
per nucleon exactly equal to `energy.front()` the tabulated interpolation
branch is taken; at `energy.back()` the power-law extrapolation equals
`lossRate.back()`, continuous with the table; at or above `energy.back()`
the rate is `lossRate.back() * (EpA / energy.back()) ^ 0.4`. -/
theorem epp_boundary_behavior :
    (∀ (tbl : List (ℝ × ℝ)) (c : Candidate), c.isNucleus = true →
        ¬ c.chargeNumber < 1 → eppEpA c = energyFront tbl →
        energyFront tbl < energyBack tbl →
        process tbl c =
          { c with
            energy := c.energy - min c.energy
              (c.chargeNumber * c.chargeNumber * interpolate (eppEpA c) tbl *
                (1 + c.redshift) ^ 2 *
                (c.currentStep / (1 + c.redshift))) }) ∧
    (∀ tbl : List (ℝ × ℝ), 0 < energyBack tbl →
        eppRateAt tbl (energyBack tbl) = lossRateBack tbl) ∧
    (∀ (tbl : List (ℝ × ℝ)) (x : ℝ), energyBack tbl ≤ x →
        eppRateAt tbl x =
          lossRateBack tbl * (x / energyBack tbl) ^ (0.4 : ℝ)) := by
  refine ⟨?_, ?_, ?_⟩
  · intro tbl c h1 h2 hEpA hfb
    have h3 : ¬ eppEpA c < energyFront tbl := by
      rw [hEpA]; exact lt_irrefl _
    have hlt : eppEpA c < energyBack tbl := by rw [hEpA]; exact hfb
    have hr : eppRateAt tbl (eppEpA c) = interpolate (eppEpA c) tbl := by
      unfold eppRateAt
      rw [if_pos hlt]
    rw [process_main tbl c h1 h2 h3, hr]
  · intro tbl hb
    unfold eppRateAt
    rw [if_neg (lt_irrefl _), div_self (ne_of_gt hb), Real.one_rpow, mul_one]
  · intro tbl x hx
    unfold eppRateAt
    rw [if_neg (not_lt.2 hx)]

/-- Witness for C6 on the two-node table `tblB` with a candidate whose
scaled energy per nucleon is exactly the lower table boundary. -/
theorem epp_boundary_behavior_witness :
    process tblB candB =
      { candB with
        energy := candB.energy - min candB.energy
          (candB.chargeNumber * candB.chargeNumber *
            interpolate (eppEpA candB) tblB * (1 + candB.redshift) ^ 2 *
            (candB.currentStep / (1 + candB.redshift))) } ∧
      eppRateAt tblB (energyBack tblB) = lossRateBack tblB := by
  constructor
  · refine epp_boundary_behavior.1 tblB candB rfl ?_ ?_ ?_
    · norm_num [candB]
    · show eppEpA candB = energyFront tblB
      norm_num [eppEpA, candB, energyFront, frontD, tblB]
    · norm_num [energyFront, energyBack, frontD, lastD, tblB]
  · exact epp_boundary_behavior.2.1 tblB (by norm_num [energyBack, lastD, tblB])

/-- C7 counterexample: `ElectronPairProduction::setPhotonField` called with
the photon field the module already holds re-runs `init()`, which appends
the re-read data file to the member vectors without clearing them, so the
loss-rate table is NOT left unchanged: from a freshly constructed CMB
module with a one-row table, re-setting CMB doubles the table. -/
theorem epp_setPhotonField_not_idempotent :
    ∃ s1 s2 : EPPState,
      mkElectronPairProduction fsCMB PhotonField.CMB = Except.ok s1 ∧
      setPhotonField fsCMB s1 PhotonField.CMB = Except.ok s2 ∧
      s1.table.length = 1 ∧ s2.table.length = 2 ∧ s2.table ≠ s1.table := by
  refine ⟨⟨PhotonField.CMB, [(1 * eV, 1 * eV / Mpc)],
      "ElectronPairProduction: CMB"⟩,
    ⟨PhotonField.CMB, [(1 * eV, 1 * eV / Mpc), (1 * eV, 1 * eV / Mpc)],
      "ElectronPairProduction: CMB"⟩, ?_, ?_, rfl, rfl, ?_⟩
  · rfl
  · rfl
  · intro h
    have hlen := congrArg List.length h
    simp at hlen

/-- C8: the diffusion tensor built by `DiffusionSDE::calculateBTensor`
satisfies `D_par = epsilon * D_perp` for every rigidity, field direction,
position, energy and redshift, as a pure function of its inputs; the
configured default of `epsilon` is `0.1`. -/
theorem calculateBTensor_ratio :
    (∀ (scale epsilon alpha : ℝ) (D0 : ℝ → ℝ) (rig energy : ℝ)
        (pos dir : ℝ × ℝ × ℝ) (z : ℝ),
        (calculateBTensor scale epsilon alpha D0 rig energy pos dir z).par =
          epsilon *
            (calculateBTensor scale epsilon alpha D0 rig energy pos dir z).perp) ∧
      diffusionSDEDefaults.epsilon = 0.1 :=
  ⟨fun _ _ _ _ _ _ _ _ _ => rfl, rfl⟩

/-- C9: `ElectronPairProduction::process` leaves the candidate completely
unchanged when the particle is not a nucleus, or its charge number is below
`1`, or its redshift-scaled energy per nucleon is strictly below the lowest
tabulated energy. -/
theorem epp_process_skips (tbl : List (ℝ × ℝ)) (c : Candidate)
    (h : c.isNucleus = false ∨ c.chargeNumber < 1 ∨
      eppEpA c < energyFront tbl) :
    process tbl c = c :=
  process_eq_self tbl c h

/-- Witness for C9: a candidate that is not a nucleus passes through
untouched. -/
theorem epp_process_skips_witness : process tblB cand0 = cand0 :=
  epp_process_skips tblB cand0 (Or.inl rfl)

/-- C10: `ElectronPairProduction::energyLossLength` returns the maximum
representable double when `Z < 1` or the energy per nucleon is strictly
below the lowest tabulated energy; otherwise it returns
`E / (Z·Z·rate)`, which is strictly positive for a valid table with
positive rates. -/
theorem energyLossLength_spec :
    (∀ (tbl : List (ℝ × ℝ)) (Z A E : ℝ),
        Z < 1 ∨ E / A < energyFront tbl →
        energyLossLength tbl Z A E = dblMax) ∧
    (∀ (tbl : List (ℝ × ℝ)) (Z A E : ℝ), validLossTable tbl →
        (∀ p ∈ tbl, 0 < p.2) → 1 ≤ Z → energyFront tbl ≤ E / A → 0 < E →
        energyLossLength tbl Z A E = E / (Z * Z * eppRateAt tbl (E / A)) ∧
          0 < energyLossLength tbl Z A E) := by
  constructor
  · intro tbl Z A E h
    unfold energyLossLength
    rcases h with h | h
    · rw [if_pos h]
    · by_cases h1 : Z < 1
      · rw [if_pos h1]
      · rw [if_neg h1, if_pos h]
  · intro tbl Z A E ht hpos hZ hEA hE
    have hnotZ : ¬ Z < 1 := not_lt.2 hZ
    have hnotE : ¬ E / A < energyFront tbl := not_lt.2 hEA
    have heq : energyLossLength tbl Z A E =
        E / (Z * Z * eppRateAt tbl (E / A)) := by
      unfold energyLossLength
      rw [if_neg hnotZ, if_neg hnotE]
      exact one_div_div _ _
    refine ⟨heq, ?_⟩
    rw [heq]
    have hrate : 0 < eppRateAt tbl (E / A) :=
      eppRateAt_pos tbl (E / A) ht hpos hEA
    have hZ0 : (0 : ℝ) < Z := lt_of_lt_of_le zero_lt_one hZ
    exact div_pos hE (mul_pos (mul_pos hZ0 hZ0) hrate)

/-- Witness for C10 on the two-node table `tblB`: an uncharged particle has
an effectively infinite loss length, and a proton-like input at the lower
table boundary has the tabulated positive loss length. -/
theorem energyLossLength_spec_witness :
    energyLossLength tblB 0 1 1 = dblMax ∧
      (energyLossLength tblB 1 1 1 = 1 / (1 * 1 * eppRateAt tblB (1 / 1)) ∧
        0 < energyLossLength tblB 1 1 1) := by
  have hvalid : validLossTable tblB := by
    unfold validLossTable
    refine ⟨by simp [tblB], ?_, ?_, ?_⟩
    · norm_num [tblB, List.chain'_cons, List.chain'_singleton]
    · norm_num [energyFront, frontD, tblB]
    · intro p hp
      simp [tblB] at hp
      rcases hp with rfl | rfl <;> norm_num
  have hpos : ∀ p ∈ tblB, 0 < p.2 := by
    intro p hp
    simp [tblB] at hp
    rcases hp with rfl | rfl <;> norm_num
  have hEA : energyFront tblB ≤ (1 : ℝ) / 1 := by
    norm_num [energyFront, frontD, tblB]
  exact ⟨energyLossLength_spec.1 tblB 0 1 1 (Or.inl zero_lt_one),
    energyLossLength_spec.2 tblB 1 1 1 hvalid hpos le_rfl hEA zero_lt_one⟩

end CRPropa
